import Mathlib

/-
Shallow embedding of src/rest_api.py: a Flask service over a SQLite table of
people (id, name, surname, birth, points), a Redis namespace of lock keys
"_key_<id>" with a 30-minute TTL set at creation, and a periodic Celery task
that increments the points of every currently locked record.

State is passed explicitly: `Sys` bundles the SQLite database, the Redis
key/expiry pairs, and the current time in seconds.  Each HTTP handler is a
function from the request JSON and the state to a response, the new state,
and the trace of external calls it made (the sequence of db/redis calls in
the Python source), so that ordering properties of the checks are provable.
-/

set_option maxRecDepth 8000

/-- A JSON scalar as it appears in a request body: the handlers only ever
compare and store integers and strings, so the embedding restricts JSON
values to those two constructors. -/
inductive JVal where
  | jint : Int → JVal
  | jstr : String → JVal
  deriving DecidableEq

/-- Modelled from the spec: schema.sql is not under src/; §3 and §6 of the
spec fix a single table (id, name, surname, birth, points) with an integer
id assigned by the store on creation and integer points.  name, surname and
birth are stored as the raw JSON values the request supplied. -/
structure Person where
  id : Nat
  name : JVal
  surname : JVal
  birth : JVal
  points : Int
  deriving DecidableEq

/-- The SQLite database: the people rows in rowid order, and the rowid the
next insert will receive (`cur.lastrowid`). -/
structure Db where
  people : List Person
  nextId : Nat
  deriving DecidableEq

/-- Redis is a list of (key, expiry-time) pairs — a key is alive at time
`now` iff `now < expiry` — together with the SQLite database and the clock. -/
structure Sys where
  db : Db
  redis : List (String × Nat)
  now : Nat
  deriving DecidableEq

/-- The external calls a handler makes, in order, as written in the source. -/
inductive Ev where
  | dbSelect
  | dbInsert
  | dbUpdate
  | dbDelete
  | dbCommit
  | redisKeys
  | redisSetex
  deriving DecidableEq

/-- The jsonify response shapes that occur in rest_api.py. -/
inductive Resp where
  | msg : String → Resp
  | msgId : String → JVal → Resp
  | msgVals : String → List JVal → Resp
  | msgUsers : String → List Person → Resp
  | msgReq : String → List (String × JVal) → Resp
  deriving DecidableEq

/-- The numeric value of a non-empty all-digit character list, else none. -/
def decNat? (cs : List Char) : Option Nat :=
  if cs.isEmpty then none
  else if cs.all (fun c => c.isDigit) then
    some (cs.foldl (fun n c => n * 10 + (c.toNat - 48)) 0)
  else none

/-- A well-formed decimal integer string (optional leading minus sign,
then digits), else none.  This is the lossless text-to-integer conversion
SQLite applies under INTEGER column affinity. -/
def strToInt? (s : String) : Option Int :=
  match s.data with
  | [] => none
  | c :: cs =>
      if c = Char.ofNat 45 then (decNat? cs).map (fun n => -(n : Int))
      else (decNat? s.data).map (fun n => (n : Int))

/-- `p` is a prefix of `s` (the glob "_key_*" of redis.keys). -/
def strHasPrefix (p s : String) : Bool := p.data.isPrefixOf s.data

/-- Python `==` between a request JSON value and a Redis-derived string:
an int never equals a str, two strs compare by equality. -/
def pyEqStr : JVal → String → Bool
  | JVal.jint _, _ => false
  | JVal.jstr s, t => s == t

/-- Python `uid in new_keys` for a list of strings. -/
def pyMem (uid : JVal) (keys : List String) : Bool :=
  keys.any (fun k => pyEqStr uid k)

/-- SQLite comparison `id = ?` against the INTEGER id column: a bound int
compares directly; a bound text value is converted under INTEGER affinity
(a well-formed decimal matches its numeric value, other text matches no
integer id). -/
def sqlIdMatch : JVal → Nat → Bool
  | JVal.jint i, n => i == (n : Int)
  | JVal.jstr s, n =>
      match strToInt? s with
      | some i => i == (n : Int)
      | none => false

/-- SQLite INTEGER column affinity applied to a bound value when storing
points.  Modelled from the spec: schema.sql is not under src/ and §3 fixes
points as an integer column; only numeric inputs arise in the claims. -/
def affInt : JVal → Int
  | JVal.jint i => i
  | JVal.jstr s => (strToInt? s).getD 0

/-- `request.json[k]`: dictionary lookup.  The default is never reached in
a handler because the `check_if_all_exist` decorator guards presence of
every key the handler reads. -/
def jsonGet (req : List (String × JVal)) (k : String) : JVal :=
  (req.lookup k).getD (JVal.jstr "")

/-- Python `k in request.json`. -/
def hasKey (req : List (String × JVal)) (k : String) : Bool :=
  req.any (fun e => e.1 == k)

/-- Python `req.update(\x7b"id": new_id\x7d)`: replace the value of an existing
key in place, else append the new pair. -/
def dictUpdate (req : List (String × JVal)) (k : String) (v : JVal) :
    List (String × JVal) :=
  if hasKey req k then req.map (fun e => if e.1 == k then (k, v) else e)
  else req ++ [(k, v)]

/-- `redis.setex(k, ttl, "key")`: the key now expires at now + ttl; any
previous entry for the same key is replaced (the stored value is an opaque
marker and is not modelled). -/
def setex (st : Sys) (k : String) (ttl : Nat) : Sys :=
  { st with redis := (k, st.now + ttl) :: st.redis.filter (fun e => !(e.1 == k)) }

/-- `redis.keys("_key_*")`: every currently unexpired key carrying the lock
prefix. -/
def redisKeysCmd (st : Sys) : List String :=
  (st.redis.filter (fun e => strHasPrefix "_key_" e.1 && decide (st.now < e.2))).map Prod.fst

/-- Python 3 `str(key)` on the bytes object redis-py returns for a key:
`str(b\x27_key_5\x27)` is the text `b\x27_key_5\x27`. -/
def pyBytesRepr (k : String) : String := "b\x27" ++ k ++ "\x27"

/-- `get_keys`: `[str(key)[7:-1] for key in redis_list]` — strips the
leading `b\x27_key_` and the trailing quote of the bytes repr, leaving the
decimal id string. -/
def get_keys (redis_list : List String) : List String :=
  redis_list.map (fun key => ((pyBytesRepr key).drop 7).dropRight 1)

/-- The Redis key under which a new record id is locked. -/
def lockKey (n : Nat) : String := "_key_" ++ toString n

/-- The lock placed by add_user: `redis.setex("_key_" + str(new_id), 60*30, "key")`. -/
def lock (st : Sys) (n : Nat) : Sys := setex st (lockKey n) (60*30)

/-- Advance the clock by d seconds (no handler runs; Redis entries whose
expiry is passed stop being listed by redisKeysCmd). -/
def tick (st : Sys) (d : Nat) : Sys := { st with now := st.now + d }

/-- `select ... from people where id=?`. -/
def sqlSelectById (db : Db) (uid : JVal) : List Person :=
  db.people.filter (fun p => sqlIdMatch uid p.id)

/-- A route handler: request JSON and state in, response, new state and the
trace of external calls out. -/
abbrev ReqHandler := List (String × JVal) → Sys → Resp × Sys × List Ev

/-- GET /rest_api/users. -/
def get_users (st : Sys) : Resp × Sys × List Ev :=
  let users := st.db.people
  if users.isEmpty then (Resp.msg "Users not found", st, [Ev.dbSelect])
  else (Resp.msgUsers "Users found" users, st, [Ev.dbSelect])

/-- POST /rest_api/user body: insert the row, commit, read lastrowid, put
the new id into the request dict, set the 30-minute Redis lock, and return
the request dict as the created user. -/
def add_user : ReqHandler := fun req st =>
  let new_id := st.db.nextId
  let p : Person :=
    { id := new_id, name := jsonGet req "name", surname := jsonGet req "surname",
      birth := jsonGet req "birth", points := affInt (jsonGet req "points") }
  let db2 : Db := { people := st.db.people ++ [p], nextId := new_id + 1 }
  let st2 := lock { st with db := db2 } new_id
  let req2 := dictUpdate req "id" (JVal.jint new_id)
  (Resp.msgReq "New user added" req2, st2, [Ev.dbInsert, Ev.dbCommit, Ev.redisSetex])

/-- DELETE /rest_api/user body: list the lock keys first; if the raw JSON id
is a member of the stripped key strings, reject; else select by id, report
"Nothing to delete" when absent, else delete and commit. -/
def delete_user_by_id : ReqHandler := fun req st =>
  let uid := jsonGet req "id"
  let new_keys := get_keys (redisKeysCmd st)
  if pyMem uid new_keys then
    (Resp.msgId "User not available, try later" uid, st, [Ev.redisKeys])
  else
    let users := sqlSelectById st.db uid
    if users.isEmpty then
      (Resp.msg "Nothing to delete", st, [Ev.redisKeys, Ev.dbSelect])
    else
      let db2 : Db := { st.db with people := st.db.people.filter (fun p => !(sqlIdMatch uid p.id)) }
      (Resp.msgId "User deleted" uid, { st with db := db2 },
       [Ev.redisKeys, Ev.dbSelect, Ev.dbDelete, Ev.dbCommit])

/-- PUT /rest_api/user body: select by id first ("Nothing to update" when
absent), then list the lock keys and reject when the raw JSON id is among
the stripped key strings, else update the row and commit. -/
def update_user : ReqHandler := fun req st =>
  let uid := jsonGet req "id"
  let users := sqlSelectById st.db uid
  if users.isEmpty then
    (Resp.msg "Nothing to update", st, [Ev.dbSelect])
  else
    let new_keys := get_keys (redisKeysCmd st)
    if pyMem uid new_keys then
      (Resp.msgId "User not available, try later" uid, st, [Ev.dbSelect, Ev.redisKeys])
    else
      let to_update := [jsonGet req "name", jsonGet req "surname", jsonGet req "birth",
                        jsonGet req "points", uid]
      let db2 : Db := { st.db with people := st.db.people.map (fun p =>
          if sqlIdMatch uid p.id then
            { p with name := jsonGet req "name", surname := jsonGet req "surname",
                     birth := jsonGet req "birth", points := affInt (jsonGet req "points") }
          else p) }
      (Resp.msgVals "User updated" to_update, { st with db := db2 },
       [Ev.dbSelect, Ev.redisKeys, Ev.dbUpdate, Ev.dbCommit])

/-- The `check_if_all_exist` decorator: if any required key is missing from
the request JSON, answer the generic message without entering the handler. -/
def check_if_all_exist (required : List String) (handler : ReqHandler) : ReqHandler :=
  fun req st =>
    if required.all (fun k => hasKey req k) then handler req st
    else (Resp.msg "Request didn\x27t contain obligatory parameters", st, [])

/-- POST /rest_api/user with its decorator. -/
def postUser : ReqHandler := check_if_all_exist ["name", "surname", "birth", "points"] add_user

/-- PUT /rest_api/user with its decorator. -/
def putUser : ReqHandler := check_if_all_exist ["id", "name", "surname", "birth", "points"] update_user

/-- DELETE /rest_api/user with its decorator. -/
def deleteUser : ReqHandler := check_if_all_exist ["id"] delete_user_by_id

/-- One iteration of the increment_points loop body for one key: select the
points of the first matching row — `cur.fetchall()[0][0]` raises IndexError
when no row matches, modelled as `none` — add the i-th random draw, write
the new value back to every row matching the key, and commit. -/
def incStep (rand : Nat → Int) (i : Nat) (db : Db) (key : String) : Option Db :=
  match db.people.filter (fun p => sqlIdMatch (JVal.jstr key) p.id) with
  | [] => none
  | p :: _ =>
      some { db with people := db.people.map (fun q =>
        if sqlIdMatch (JVal.jstr key) q.id then { q with points := p.points + rand i } else q) }

/-- The for-loop of increment_points: each successful step is committed
before the next key is read; an IndexError aborts the loop, keeping
everything committed so far (`false` marks the raised exception). -/
def incLoop (rand : Nat → Int) : Nat → Db → List String → Db × Bool
  | _, db, [] => (db, true)
  | i, db, key :: rest =>
      match incStep rand i db key with
      | none => (db, false)
      | some db2 => incLoop rand (i+1) db2 rest

/-- The periodic task: list the stripped lock keys; when none, do nothing;
else run the per-key increment loop.  `rand i` is the value randint(1, 9)
returned at the i-th iteration. -/
def increment_points (rand : Nat → Int) (st : Sys) : Sys × Bool :=
  let new_keys := get_keys (redisKeysCmd st)
  if new_keys.isEmpty then (st, true)
  else
    let r := incLoop rand 0 st.db new_keys
    ({ st with db := r.1 }, r.2)

/-- Every occurrence of event a comes strictly before every occurrence of
event b in the trace. -/
def evBefore (a b : Ev) (tr : List Ev) : Prop :=
  ∀ i j : Fin tr.length, tr.get i = a → tr.get j = b → (i : Nat) < (j : Nat)

example : get_keys ["_key_1", "_key_23"] = ["1", "23"] := by decide

example : pyMem (JVal.jint 1) ["1"] = false := by decide

example : sqlIdMatch (JVal.jstr "23") 23 = true := by decide

instance evBeforeDec (a b : Ev) (tr : List Ev) : Decidable (evBefore a b tr) := by
  unfold evBefore; infer_instance

lemma pyMem_jint (i : Int) (keys : List String) : pyMem (JVal.jint i) keys = false := by
  simp [pyMem, pyEqStr]

lemma filter_key_of_filter_not (k : String) (l : List (String × Nat)) :
    (l.filter (fun e => !(e.1 == k))).filter (fun e => e.1 == k) = [] := by
  induction l with
  | nil => rfl
  | cons a t ih =>
      by_cases h : a.1 == k <;> simp [List.filter_cons, h, ih]

/-- The empty store and a typical POST body, used as concrete inputs. -/
def st0 : Sys := { db := { people := [], nextId := 1 }, redis := [], now := 0 }

def reqA : List (String × JVal) :=
  [("name", JVal.jstr "A"), ("surname", JVal.jstr "B"),
   ("birth", JVal.jstr "2000-01-01"), ("points", JVal.jint 5)]

/-- The state right after POST /user on the empty store: record 1 exists and
"_key_1" is locked until second 1800. -/
def stAfterPost : Sys := (postUser reqA st0).2.1

def reqPut1 : List (String × JVal) :=
  [("id", JVal.jint 1), ("name", JVal.jstr "A2"), ("surname", JVal.jstr "B2"),
   ("birth", JVal.jstr "2001-01-01"), ("points", JVal.jint 6)]

/-- Claim C1 (code bug): immediately after Create assigns id 1 and locks it
(the lock entry "_key_1" is present and unexpired), a Delete or Update that
supplies the id in the integer form Create itself returned is NOT rejected:
the Delete removes the row and the Update rewrites it, while the same Delete
with the id as the string "1" is rejected as the claim demands.  The raw
JSON id is compared against prefix-stripped key strings, so the integer
never matches. -/
theorem C1_code_bug_delete_while_locked :
    stAfterPost.redis = [("_key_1", 1800)] ∧ stAfterPost.now = 0 ∧
    (deleteUser [("id", JVal.jint 1)] stAfterPost).1 = Resp.msgId "User deleted" (JVal.jint 1) ∧
    (deleteUser [("id", JVal.jint 1)] stAfterPost).2.1.db.people = [] ∧
    (putUser reqPut1 stAfterPost).1 =
      Resp.msgVals "User updated"
        [JVal.jstr "A2", JVal.jstr "B2", JVal.jstr "2001-01-01", JVal.jint 6, JVal.jint 1] ∧
    (deleteUser [("id", JVal.jstr "1")] stAfterPost).1 =
      Resp.msgId "User not available, try later" (JVal.jstr "1") := by
  decide

/-- Claim C3: the lock-membership test compares the raw JSON id against the
prefix-stripped lock-key strings, so a JSON integer id is never a member,
and Delete and Update then behave exactly as they would with an empty lock
registry (same response, same resulting store). -/
theorem C3_int_id_bypasses_lock (req : List (String × JVal)) (st : Sys) (i : Int)
    (h : jsonGet req "id" = JVal.jint i) :
    pyMem (jsonGet req "id") (get_keys (redisKeysCmd st)) = false ∧
    (delete_user_by_id req st).1 = (delete_user_by_id req { st with redis := [] }).1 ∧
    (delete_user_by_id req st).2.1.db = (delete_user_by_id req { st with redis := [] }).2.1.db ∧
    (update_user req st).1 = (update_user req { st with redis := [] }).1 ∧
    (update_user req st).2.1.db = (update_user req { st with redis := [] }).2.1.db := by
  refine ⟨by rw [h]; exact pyMem_jint i _, ?_, ?_, ?_, ?_⟩ <;>
    simp only [delete_user_by_id, update_user, h, pyMem_jint, redisKeysCmd, get_keys,
      List.filter_nil, List.map_nil] <;>
    split <;> (try split) <;> simp

/-- Claim C4: in every Update call the store existence check precedes the
lock check and the lock check precedes the write; in every Delete call the
lock check comes first and the existence check second (and the delete write
after it), as witnessed by the call traces. -/
theorem C4_check_order (req : List (String × JVal)) (st : Sys) :
    evBefore Ev.dbSelect Ev.redisKeys (update_user req st).2.2 ∧
    evBefore Ev.redisKeys Ev.dbUpdate (update_user req st).2.2 ∧
    evBefore Ev.redisKeys Ev.dbSelect (delete_user_by_id req st).2.2 ∧
    evBefore Ev.dbSelect Ev.dbDelete (delete_user_by_id req st).2.2 := by
  refine ⟨?_, ?_, ?_, ?_⟩ <;>
    (simp only [update_user, delete_user_by_id]; split <;> (try split) <;> (dsimp only; decide))

/-- The store is empty but id 7 is still locked: the concrete input that
refutes claim C5 for Delete. -/
def stC5 : Sys := { db := { people := [], nextId := 1 }, redis := [("_key_7", 100)], now := 0 }

/-- Claim C5 counterexample: id "7" is absent from the store, yet Delete
answers with the locked outcome rather than "Nothing to delete", and its
trace shows the lock registry was consulted. -/
theorem C5_counterexample :
    sqlSelectById stC5.db (jsonGet [("id", JVal.jstr "7")] "id") = [] ∧
    (deleteUser [("id", JVal.jstr "7")] stC5).1 =
      Resp.msgId "User not available, try later" (JVal.jstr "7") ∧
    (deleteUser [("id", JVal.jstr "7")] stC5).1 ≠ Resp.msg "Nothing to delete" ∧
    Ev.redisKeys ∈ (deleteUser [("id", JVal.jstr "7")] stC5).2.2 := by
  decide

/-- Claim C5 amended: for an id absent from the store, Update returns
"Nothing to update" without consulting lock state and without mutating
anything; Delete always consults lock state first: when the absent id is
not among the stripped lock keys it returns "Nothing to delete" without
mutating anything, but when it is still a member it returns the locked
outcome instead. -/
theorem C5_amended_not_found (req : List (String × JVal)) (st : Sys)
    (h : sqlSelectById st.db (jsonGet req "id") = []) :
    update_user req st = (Resp.msg "Nothing to update", st, [Ev.dbSelect]) ∧
    (pyMem (jsonGet req "id") (get_keys (redisKeysCmd st)) = false →
      delete_user_by_id req st = (Resp.msg "Nothing to delete", st, [Ev.redisKeys, Ev.dbSelect])) ∧
    (pyMem (jsonGet req "id") (get_keys (redisKeysCmd st)) = true →
      delete_user_by_id req st =
        (Resp.msgId "User not available, try later" (jsonGet req "id"), st, [Ev.redisKeys])) := by
  refine ⟨?_, fun hm => ?_, fun hm => ?_⟩
  · simp [update_user, h]
  · simp [delete_user_by_id, h, hm]
  · simp [delete_user_by_id, h, hm]

/-- Claim C8: locking the same id twice, the second time d seconds later,
leaves exactly one Redis entry for that key, and its expiry is 30 minutes
from the most recent call. -/
theorem C8_lock_idempotent_refresh (st : Sys) (n : Nat) (d : Nat) :
    ((lock (tick (lock st n) d) n).redis.filter (fun e => e.1 == lockKey n))
      = [(lockKey n, st.now + d + 60*30)] := by
  simp [lock, setex, tick, List.filter_cons, filter_key_of_filter_not]

/-- Claim C9: a mutating request missing a required field of its route is
answered with exactly the generic obligatory-parameters message, the state
is untouched and no store or registry call is made. -/
theorem C9_missing_params (req : List (String × JVal)) (st : Sys) :
    ((["name", "surname", "birth", "points"].all (fun k => hasKey req k)) = false →
      postUser req st = (Resp.msg "Request didn\x27t contain obligatory parameters", st, [])) ∧
    ((["id", "name", "surname", "birth", "points"].all (fun k => hasKey req k)) = false →
      putUser req st = (Resp.msg "Request didn\x27t contain obligatory parameters", st, [])) ∧
    ((["id"].all (fun k => hasKey req k)) = false →
      deleteUser req st = (Resp.msg "Request didn\x27t contain obligatory parameters", st, [])) := by
  refine ⟨fun h => ?_, fun h => ?_, fun h => ?_⟩ <;>
    simp [postUser, putUser, deleteUser, check_if_all_exist, h]

/-- Claim C10: GET /users answers "Users not found" as a normal outcome on
an empty store, and the full list of records otherwise; the state is never
changed. -/
theorem C10_get_users (st : Sys) :
    (st.db.people = [] → get_users st = (Resp.msg "Users not found", st, [Ev.dbSelect])) ∧
    (st.db.people ≠ [] →
      get_users st = (Resp.msgUsers "Users found" st.db.people, st, [Ev.dbSelect])) := by
  refine ⟨fun h => ?_, fun h => ?_⟩ <;>
    simp [get_users, h, List.isEmpty_iff]

lemma incStep_eq_some {rand : Nat → Int} {i : Nat} {db : Db} {key : String} {db2 : Db}
    (h : incStep rand i db key = some db2) :
    ∃ p0 rest0, db.people.filter (fun p => sqlIdMatch (JVal.jstr key) p.id) = p0 :: rest0 ∧
      db2 = { db with people := db.people.map (fun q =>
        if sqlIdMatch (JVal.jstr key) q.id then { q with points := p0.points + rand i } else q) } := by
  unfold incStep at h
  cases hfil : db.people.filter (fun p => sqlIdMatch (JVal.jstr key) p.id) with
  | nil => rw [hfil] at h; exact absurd h (by simp)
  | cons p0 rest0 =>
      rw [hfil] at h
      exact ⟨p0, rest0, rfl, by injection h with h2; exact h2.symm⟩

lemma incStep_none_iff {rand : Nat → Int} {i : Nat} {db : Db} {key : String} :
    incStep rand i db key = none ↔
      db.people.filter (fun p => sqlIdMatch (JVal.jstr key) p.id) = [] := by
  unfold incStep
  cases hfil : db.people.filter (fun p => sqlIdMatch (JVal.jstr key) p.id) <;> simp

lemma incStep_ids {rand : Nat → Int} {i : Nat} {db : Db} {key : String} {db2 : Db}
    (h : incStep rand i db key = some db2) :
    db2.people.map Person.id = db.people.map Person.id := by
  obtain ⟨p0, rest0, hfil, rfl⟩ := incStep_eq_some h
  rw [List.map_map]
  apply List.map_congr_left
  intro q _
  by_cases hm : sqlIdMatch (JVal.jstr key) q.id <;> simp [hm]

lemma incLoop_ids (rand : Nat → Int) :
    ∀ (keys : List String) (i : Nat) (db : Db),
      (incLoop rand i db keys).1.people.map Person.id = db.people.map Person.id := by
  intro keys
  induction keys with
  | nil => intro i db; rfl
  | cons key rest ih =>
      intro i db
      cases h : incStep rand i db key with
      | none => simp [incLoop, h]
      | some db2 =>
          simp only [incLoop, h]
          rw [ih (i+1) db2, incStep_ids h]

lemma incLoop_frame (rand : Nat → Int) :
    ∀ (keys : List String) (i : Nat) (db : Db) (p : Person),
      p ∈ db.people → (∀ k ∈ keys, sqlIdMatch (JVal.jstr k) p.id = false) →
      p ∈ (incLoop rand i db keys).1.people := by
  intro keys
  induction keys with
  | nil => intro i db p hp _; exact hp
  | cons key rest ih =>
      intro i db p hp hno
      cases h : incStep rand i db key with
      | none => simpa [incLoop, h] using hp
      | some db2 =>
          simp only [incLoop, h]
          refine ih (i+1) db2 p ?_ (fun k hk => hno k (List.mem_cons_of_mem _ hk))
          obtain ⟨p0, rest0, hfil, rfl⟩ := incStep_eq_some h
          have hmem := List.mem_map_of_mem
            (fun q => if sqlIdMatch (JVal.jstr key) q.id then
                        { q with points := p0.points + rand i } else q) hp
          simpa [hno key (List.mem_cons_self key rest)] using hmem

lemma sqlIdMatch_jstr_inj {k : String} {n m : Nat}
    (hn : sqlIdMatch (JVal.jstr k) n = true) (hm : sqlIdMatch (JVal.jstr k) m = true) :
    n = m := by
  simp only [sqlIdMatch] at hn hm
  cases h : strToInt? k with
  | none => rw [h] at hn; exact absurd hn (by simp)
  | some z =>
      rw [h] at hn hm
      have h1 : z = (n : Int) := by exact_mod_cast beq_iff_eq.1 hn
      have h2 : z = (m : Int) := by exact_mod_cast beq_iff_eq.1 hm
      omega

lemma filter_match_single (k : String) :
    ∀ (l : List Person), (l.map Person.id).Nodup →
      ∀ p ∈ l, sqlIdMatch (JVal.jstr k) p.id = true →
      l.filter (fun q => sqlIdMatch (JVal.jstr k) q.id) = [p] := by
  intro l
  induction l with
  | nil => intro _ p hp; exact absurd hp (by simp)
  | cons a t ih =>
      intro hnd p hp hm
      rw [List.map_cons, List.nodup_cons] at hnd
      obtain ⟨hnd1, hnd2⟩ := hnd
      rcases List.mem_cons.1 hp with rfl | hpt
      · have ht : t.filter (fun q => sqlIdMatch (JVal.jstr k) q.id) = [] := by
          rw [List.filter_eq_nil_iff]
          intro q hq hqm
          exact hnd1 (sqlIdMatch_jstr_inj hqm hm ▸ List.mem_map_of_mem Person.id hq)
        simp [List.filter_cons, hm, ht]
      · have ham : sqlIdMatch (JVal.jstr k) a.id = false := by
          by_contra hc
          rw [Bool.not_eq_false] at hc
          exact hnd1 (sqlIdMatch_jstr_inj hm hc ▸ List.mem_map_of_mem Person.id hpt)
        simp only [List.filter_cons, ham, Bool.false_eq_true, if_false]
        exact ih hnd2 p hpt hm

lemma incLoop_bounds (rand : Nat → Int) (hr : ∀ i, 1 ≤ rand i ∧ rand i ≤ 9) :
    ∀ (keys : List String) (i : Nat) (db : Db) (p : Person),
      (db.people.map Person.id).Nodup → p ∈ db.people →
      (incLoop rand i db keys).2 = true →
      ∃ q ∈ (incLoop rand i db keys).1.people, q.id = p.id ∧
        p.points + (keys.countP (fun k => sqlIdMatch (JVal.jstr k) p.id) : Int) ≤ q.points ∧
        q.points ≤ p.points + 9 * (keys.countP (fun k => sqlIdMatch (JVal.jstr k) p.id) : Int) := by
  intro keys
  induction keys with
  | nil =>
      intro i db p _ hp _
      exact ⟨p, hp, rfl, by simp, by simp⟩
  | cons key rest ih =>
      intro i db p hnd hp hok
      cases h : incStep rand i db key with
      | none => simp only [incLoop, h] at hok; simp at hok
      | some db2 =>
          simp only [incLoop, h] at hok ⊢
          have hnd2 : (db2.people.map Person.id).Nodup := by rw [incStep_ids h]; exact hnd
          by_cases hm : sqlIdMatch (JVal.jstr key) p.id = true
          · obtain ⟨p0, rest0, hfil0, hdb2⟩ := incStep_eq_some h
            have hfil : db.people.filter (fun q => sqlIdMatch (JVal.jstr key) q.id) = [p] :=
              filter_match_single key db.people hnd p hp hm
            have hp0 : p0 = p := by
              rw [hfil] at hfil0
              injection hfil0 with h1 h2
              exact h1.symm
            rw [hp0] at hdb2
            have hp2mem : ({ p with points := p.points + rand i } : Person) ∈ db2.people := by
              rw [hdb2]
              have hmem := List.mem_map_of_mem
                (fun q => if sqlIdMatch (JVal.jstr key) q.id then
                            { q with points := p.points + rand i } else q) hp
              simpa [hm] using hmem
            obtain ⟨q, hq, hqid, hlo, hhi⟩ :=
              ih (i+1) db2 { p with points := p.points + rand i } hnd2 hp2mem hok
            have hqid2 : q.id = p.id := hqid
            have hlo2 : p.points + rand i
                + (rest.countP (fun k => sqlIdMatch (JVal.jstr k) p.id) : Int) ≤ q.points := hlo
            have hhi2 : q.points ≤ p.points + rand i
                + 9 * (rest.countP (fun k => sqlIdMatch (JVal.jstr k) p.id) : Int) := hhi
            have hcnt : (key :: rest).countP (fun k => sqlIdMatch (JVal.jstr k) p.id)
                = rest.countP (fun k => sqlIdMatch (JVal.jstr k) p.id) + 1 := by
              simp [List.countP_cons, hm]
            have h1 := (hr i).1
            have h9 := (hr i).2
            refine ⟨q, hq, hqid2, ?_, ?_⟩
            · rw [hcnt]; push_cast; omega
            · rw [hcnt]; push_cast; omega
          · rw [Bool.not_eq_true] at hm
            have hpmem : p ∈ db2.people := by
              obtain ⟨p0, rest0, hfil0, hdb2⟩ := incStep_eq_some h
              rw [hdb2]
              have hmem := List.mem_map_of_mem
                (fun q => if sqlIdMatch (JVal.jstr key) q.id then
                            { q with points := p0.points + rand i } else q) hp
              simpa [hm] using hmem
            obtain ⟨q, hq, hqid, hlo, hhi⟩ := ih (i+1) db2 p hnd2 hpmem hok
            have hcnt : (key :: rest).countP (fun k => sqlIdMatch (JVal.jstr k) p.id)
                = rest.countP (fun k => sqlIdMatch (JVal.jstr k) p.id) := by
              simp [List.countP_cons, hm]
            exact ⟨q, hq, hqid, by rw [hcnt]; exact hlo, by rw [hcnt]; exact hhi⟩


lemma incLoop_true_of_match (rand : Nat → Int) :
    ∀ (keys : List String) (i : Nat) (db : Db),
      (∀ k ∈ keys, ∃ q ∈ db.people, sqlIdMatch (JVal.jstr k) q.id = true) →
      (incLoop rand i db keys).2 = true := by
  intro keys
  induction keys with
  | nil => intro i db _; rfl
  | cons key rest ih =>
      intro i db hall
      cases h : incStep rand i db key with
      | none =>
          obtain ⟨q, hq, hqm⟩ := hall key (List.mem_cons_self key rest)
          have : q ∈ db.people.filter (fun p => sqlIdMatch (JVal.jstr key) p.id) :=
            List.mem_filter.2 ⟨hq, hqm⟩
          rw [incStep_none_iff.1 h] at this
          exact absurd this (by simp)
      | some db2 =>
          rw [incLoop, h]
          apply ih (i+1) db2
          intro k hk
          obtain ⟨q, hq, hqm⟩ := hall k (List.mem_cons_of_mem _ hk)
          have hidm : q.id ∈ db2.people.map Person.id := by
            rw [incStep_ids h]; exact List.mem_map_of_mem Person.id hq
          obtain ⟨q2, hq2, hq2id⟩ := List.mem_map.1 hidm
          exact ⟨q2, hq2, hq2id ▸ hqm⟩

lemma incLoop_match_of_true (rand : Nat → Int) :
    ∀ (keys : List String) (i : Nat) (db : Db),
      (incLoop rand i db keys).2 = true →
      ∀ k ∈ keys, ∃ q ∈ db.people, sqlIdMatch (JVal.jstr k) q.id = true := by
  intro keys
  induction keys with
  | nil => intro i db _ k hk; exact absurd hk (by simp)
  | cons key rest ih =>
      intro i db hok k hk
      cases h : incStep rand i db key with
      | none => rw [incLoop, h] at hok; exact absurd hok (by simp)
      | some db2 =>
          rw [incLoop, h] at hok
          rcases List.mem_cons.1 hk with rfl | hkr
          · obtain ⟨p0, rest0, hfil0, _⟩ := incStep_eq_some h
            have : p0 ∈ db.people.filter (fun p => sqlIdMatch (JVal.jstr k) p.id) := by
              rw [hfil0]; exact List.mem_cons_self p0 rest0
            obtain ⟨hp0, hp0m⟩ := List.mem_filter.1 this
            exact ⟨p0, hp0, hp0m⟩
          · obtain ⟨q, hq, hqm⟩ := ih (i+1) db2 hok k hkr
            have hidm : q.id ∈ db.people.map Person.id := by
              rw [← incStep_ids h]; exact List.mem_map_of_mem Person.id hq
            obtain ⟨q2, hq2, hq2id⟩ := List.mem_map.1 hidm
            exact ⟨q2, hq2, hq2id ▸ hqm⟩

lemma incLoop_append (rand : Nat → Int) :
    ∀ (ks1 ks2 : List String) (i : Nat) (db : Db),
      incLoop rand i db (ks1 ++ ks2) =
        (if (incLoop rand i db ks1).2 then
          incLoop rand (i + ks1.length) (incLoop rand i db ks1).1 ks2
         else incLoop rand i db ks1) := by
  intro ks1
  induction ks1 with
  | nil => intro ks2 i db; simp [incLoop]
  | cons key t ih =>
      intro ks2 i db
      cases h : incStep rand i db key with
      | none => simp [incLoop, h]
      | some db2 =>
          simp only [List.cons_append, incLoop, h, List.append_eq]
          rw [ih ks2 (i+1) db2]
          have harith : i + 1 + t.length = i + (key :: t).length := by
            simp only [List.length_cons]
            omega
          rw [harith]

/-- Claim C7: a record whose id is denoted by none of the currently listed,
prefix-stripped lock keys is left entirely unchanged by one run of the
Maintenance Job — the very record, all fields included, is still in the
store — and the job changes neither the lock registry nor the clock. -/
theorem C7_job_frame (rand : Nat → Int) (st : Sys) (p : Person)
    (hp : p ∈ st.db.people)
    (hno : ∀ k ∈ get_keys (redisKeysCmd st), sqlIdMatch (JVal.jstr k) p.id = false) :
    p ∈ (increment_points rand st).1.db.people ∧
    (increment_points rand st).1.redis = st.redis ∧
    (increment_points rand st).1.now = st.now := by
  by_cases hk : (get_keys (redisKeysCmd st)).isEmpty = true
  · refine ⟨?_, ?_, ?_⟩ <;> simp only [increment_points, hk, if_true]
    exact hp
  · rw [Bool.not_eq_true] at hk
    refine ⟨?_, ?_, ?_⟩ <;>
      simp only [increment_points, hk, Bool.false_eq_true, if_false]
    exact incLoop_frame rand (get_keys (redisKeysCmd st)) 0 st.db p hp hno

/-- Claim C6: when one run of the Maintenance Job completes without error,
a record whose id is denoted by exactly one of the stripped lock keys ends
the run with its points increased by a value in [1, 9], and a second
completed run composes additively: the final value lies in
[after-first + 1, after-first + 9]. -/
theorem C6_job_increment_bounds (st : Sys) (r1 r2 : Nat → Int) (p : Person)
    (hnd : (st.db.people.map Person.id).Nodup)
    (hr1 : ∀ i, 1 ≤ r1 i ∧ r1 i ≤ 9) (hr2 : ∀ i, 1 ≤ r2 i ∧ r2 i ≤ 9)
    (hp : p ∈ st.db.people)
    (hlk : (get_keys (redisKeysCmd st)).countP (fun k => sqlIdMatch (JVal.jstr k) p.id) = 1)
    (hok : (increment_points r1 st).2 = true) :
    ∃ q ∈ (increment_points r1 st).1.db.people,
      q.id = p.id ∧ p.points + 1 ≤ q.points ∧ q.points ≤ p.points + 9 ∧
      ∃ q2 ∈ (increment_points r2 (increment_points r1 st).1).1.db.people,
        q2.id = p.id ∧ q.points + 1 ≤ q2.points ∧ q2.points ≤ q.points + 9 := by
  have hne0 : get_keys (redisKeysCmd st) ≠ [] := by
    intro h
    rw [h] at hlk
    simp at hlk
  have hne : (get_keys (redisKeysCmd st)).isEmpty = false := by
    cases hgk : get_keys (redisKeysCmd st) with
    | nil => exact absurd hgk hne0
    | cons a l => rfl
  have hrun1 : increment_points r1 st =
      ({ st with db := (incLoop r1 0 st.db (get_keys (redisKeysCmd st))).1 },
        (incLoop r1 0 st.db (get_keys (redisKeysCmd st))).2) := by
    simp [increment_points, hne]
  simp only [hrun1] at hok ⊢
  obtain ⟨q, hq, hqid, hlo, hhi⟩ :=
    incLoop_bounds r1 hr1 (get_keys (redisKeysCmd st)) 0 st.db p hnd hp hok
  rw [hlk] at hlo hhi
  have hnd1 : ((incLoop r1 0 st.db (get_keys (redisKeysCmd st))).1.people.map Person.id).Nodup := by
    rw [incLoop_ids]
    exact hnd
  have hmatch : ∀ k ∈ get_keys (redisKeysCmd st),
      ∃ q0 ∈ (incLoop r1 0 st.db (get_keys (redisKeysCmd st))).1.people,
        sqlIdMatch (JVal.jstr k) q0.id = true := by
    intro k hk
    obtain ⟨q0, hq0, hq0m⟩ :=
      incLoop_match_of_true r1 (get_keys (redisKeysCmd st)) 0 st.db hok k hk
    have hidm : q0.id ∈
        (incLoop r1 0 st.db (get_keys (redisKeysCmd st))).1.people.map Person.id := by
      rw [incLoop_ids]
      exact List.mem_map_of_mem Person.id hq0
    obtain ⟨q1, hq1, hq1id⟩ := List.mem_map.1 hidm
    exact ⟨q1, hq1, hq1id ▸ hq0m⟩
  have hok2 : (incLoop r2 0 (incLoop r1 0 st.db (get_keys (redisKeysCmd st))).1
      (get_keys (redisKeysCmd st))).2 = true :=
    incLoop_true_of_match r2 (get_keys (redisKeysCmd st)) 0 _ hmatch
  have hkeys1 : redisKeysCmd
      ({ st with db := (incLoop r1 0 st.db (get_keys (redisKeysCmd st))).1 }) =
      redisKeysCmd st := rfl
  have hrun2 : increment_points r2
      ({ st with db := (incLoop r1 0 st.db (get_keys (redisKeysCmd st))).1 }) =
      ({ st with db := (incLoop r2 0 (incLoop r1 0 st.db (get_keys (redisKeysCmd st))).1
          (get_keys (redisKeysCmd st))).1 },
        (incLoop r2 0 (incLoop r1 0 st.db (get_keys (redisKeysCmd st))).1
          (get_keys (redisKeysCmd st))).2) := by
    simp [increment_points, hkeys1, hne0]
  simp only [hrun2]
  have hcnt1 : (get_keys (redisKeysCmd st)).countP
      (fun k => sqlIdMatch (JVal.jstr k) q.id) = 1 := by
    rw [hqid]
    exact hlk
  obtain ⟨q2, hq2, hq2id, hlo2, hhi2⟩ :=
    incLoop_bounds r2 hr2 (get_keys (redisKeysCmd st)) 0
      (incLoop r1 0 st.db (get_keys (redisKeysCmd st))).1 q hnd1 hq hok2
  rw [hcnt1] at hlo2 hhi2
  refine ⟨q, hq, hqid, by simpa using hlo, by simpa using hhi,
    q2, hq2, by rw [hq2id, hqid], by simpa using hlo2, by simpa using hhi2⟩

/-- The record with id 2 and points 10 of the C2 scenario. -/
def pC2 : Person :=
  { id := 2, name := JVal.jstr "n", surname := JVal.jstr "s",
    birth := JVal.jstr "b", points := 10 }

/-- Ids 1 and 2 are locked, but only record 2 exists in the store. -/
def stC2 : Sys :=
  { db := { people := [pC2], nextId := 3 },
    redis := [("_key_1", 100), ("_key_2", 100)], now := 0 }

/-- Claim C2 counterexample: locked id "1" has no record (deleted
concurrently) while locked id "2" is present with points 10; the run
aborts at "1" with the unhandled IndexError and record 2 keeps points 10,
although the claim requires the increments of all other locked ids of the
same run to be applied. -/
theorem C2_counterexample :
    get_keys (redisKeysCmd stC2) = ["1", "2"] ∧
    (∀ q ∈ stC2.db.people, sqlIdMatch (JVal.jstr "1") q.id = false) ∧
    (∃ q ∈ stC2.db.people, q.id = 2 ∧ q.points = 10) ∧
    (increment_points (fun _ => 5) stC2).2 = false ∧
    (increment_points (fun _ => 5) stC2).1.db.people = [pC2] ∧
    ¬ ∃ q ∈ (increment_points (fun _ => 5) stC2).1.db.people,
        q.id = 2 ∧ 10 + 1 ≤ q.points := by
  decide

/-- Claim C2 amended: when the stripped key list splits as pre ++ bad :: post,
the per-key loop over pre succeeds and bad matches no record then present,
the run keeps exactly the per-record commits already made for pre, stops at
bad with the unhandled IndexError (reported as false), and the increments of
every key after bad are never applied. -/
theorem C2_amended_prefix_commits (rand : Nat → Int) (st : Sys)
    (pre post : List String) (bad : String)
    (hkeys : get_keys (redisKeysCmd st) = pre ++ bad :: post)
    (hpre : (incLoop rand 0 st.db pre).2 = true)
    (hbad : ∀ q ∈ (incLoop rand 0 st.db pre).1.people,
      sqlIdMatch (JVal.jstr bad) q.id = false) :
    increment_points rand st = ({ st with db := (incLoop rand 0 st.db pre).1 }, false) := by
  have hne0 : get_keys (redisKeysCmd st) ≠ [] := by
    rw [hkeys]
    cases pre <;> simp
  have hrun : increment_points rand st =
      ({ st with db := (incLoop rand 0 st.db (get_keys (redisKeysCmd st))).1 },
        (incLoop rand 0 st.db (get_keys (redisKeysCmd st))).2) := by
    simp [increment_points, hne0]
  rw [hrun, hkeys, incLoop_append, if_pos hpre]
  have hstep : incStep rand (0 + pre.length) (incLoop rand 0 st.db pre).1 bad = none := by
    rw [incStep_none_iff, List.filter_eq_nil_iff]
    intro q hq
    simpa using hbad q hq
  simp only [incLoop, hstep]

/-- A single locked record with points 10 (the C6 scenario). -/
def pC6 : Person :=
  { id := 1, name := JVal.jstr "n", surname := JVal.jstr "s",
    birth := JVal.jstr "b", points := 10 }

def stC6 : Sys :=
  { db := { people := [pC6], nextId := 2 }, redis := [("_key_1", 100)], now := 0 }

/-- An unlocked record next to a locked one (the C7 scenario). -/
def pC7 : Person :=
  { id := 3, name := JVal.jstr "x", surname := JVal.jstr "y",
    birth := JVal.jstr "z", points := 4 }

def stC7 : Sys :=
  { db := { people := [pC7, pC6], nextId := 4 }, redis := [("_key_1", 100)], now := 0 }

/-- Concrete instantiation of the C2 amended theorem on the C2 scenario:
the empty prefix commits nothing, the run stops at key "1". -/
theorem C2_amended_witness :
    increment_points (fun _ => 5) stC2 =
      ({ stC2 with db := (incLoop (fun _ => 5) 0 stC2.db []).1 }, false) :=
  C2_amended_prefix_commits (fun _ => 5) stC2 [] ["2"] "1"
    (by decide) (by decide) (by decide)

/-- Concrete instantiation of the C3 theorem: integer id 1 at the
locked-after-create state. -/
theorem C3_witness :
    pyMem (jsonGet [("id", JVal.jint 1)] "id") (get_keys (redisKeysCmd stAfterPost)) = false ∧
    (delete_user_by_id [("id", JVal.jint 1)] stAfterPost).1 =
      (delete_user_by_id [("id", JVal.jint 1)] { stAfterPost with redis := [] }).1 ∧
    (delete_user_by_id [("id", JVal.jint 1)] stAfterPost).2.1.db =
      (delete_user_by_id [("id", JVal.jint 1)] { stAfterPost with redis := [] }).2.1.db ∧
    (update_user [("id", JVal.jint 1)] stAfterPost).1 =
      (update_user [("id", JVal.jint 1)] { stAfterPost with redis := [] }).1 ∧
    (update_user [("id", JVal.jint 1)] stAfterPost).2.1.db =
      (update_user [("id", JVal.jint 1)] { stAfterPost with redis := [] }).2.1.db :=
  C3_int_id_bypasses_lock [("id", JVal.jint 1)] stAfterPost 1 (by decide)

/-- Concrete instantiation of the C4 ordering theorem. -/
theorem C4_witness :
    evBefore Ev.dbSelect Ev.redisKeys (update_user [("id", JVal.jstr "1")] stAfterPost).2.2 ∧
    evBefore Ev.redisKeys Ev.dbUpdate (update_user [("id", JVal.jstr "1")] stAfterPost).2.2 ∧
    evBefore Ev.redisKeys Ev.dbSelect (delete_user_by_id [("id", JVal.jstr "1")] stAfterPost).2.2 ∧
    evBefore Ev.dbSelect Ev.dbDelete (delete_user_by_id [("id", JVal.jstr "1")] stAfterPost).2.2 :=
  C4_check_order [("id", JVal.jstr "1")] stAfterPost

/-- Concrete instantiation of the C5 amended theorem: id "7" is absent from
the empty store of stC5. -/
theorem C5_witness :
    update_user [("id", JVal.jstr "7")] stC5 =
      (Resp.msg "Nothing to update", stC5, [Ev.dbSelect]) ∧
    (pyMem (jsonGet [("id", JVal.jstr "7")] "id") (get_keys (redisKeysCmd stC5)) = false →
      delete_user_by_id [("id", JVal.jstr "7")] stC5 =
        (Resp.msg "Nothing to delete", stC5, [Ev.redisKeys, Ev.dbSelect])) ∧
    (pyMem (jsonGet [("id", JVal.jstr "7")] "id") (get_keys (redisKeysCmd stC5)) = true →
      delete_user_by_id [("id", JVal.jstr "7")] stC5 =
        (Resp.msgId "User not available, try later" (jsonGet [("id", JVal.jstr "7")] "id"),
         stC5, [Ev.redisKeys])) :=
  C5_amended_not_found [("id", JVal.jstr "7")] stC5 (by decide)

/-- Concrete instantiation of the C6 theorem: record 1 with points 10 is
locked, the first run draws 5, the second 6. -/
theorem C6_witness :
    ∃ q ∈ (increment_points (fun _ => 5) stC6).1.db.people,
      q.id = pC6.id ∧ pC6.points + 1 ≤ q.points ∧ q.points ≤ pC6.points + 9 ∧
      ∃ q2 ∈ (increment_points (fun _ => 6)
          (increment_points (fun _ => 5) stC6).1).1.db.people,
        q2.id = pC6.id ∧ q.points + 1 ≤ q2.points ∧ q2.points ≤ q.points + 9 :=
  C6_job_increment_bounds stC6 (fun _ => 5) (fun _ => 6) pC6 (by decide)
    (fun _ => ⟨by norm_num, by norm_num⟩) (fun _ => ⟨by norm_num, by norm_num⟩)
    (by decide) (by decide) (by decide)

/-- Concrete instantiation of the C7 frame theorem: record 3 is not locked
while record 1 is, and the run leaves record 3 untouched. -/
theorem C7_witness :
    pC7 ∈ (increment_points (fun _ => 5) stC7).1.db.people ∧
    (increment_points (fun _ => 5) stC7).1.redis = stC7.redis ∧
    (increment_points (fun _ => 5) stC7).1.now = stC7.now :=
  C7_job_frame (fun _ => 5) stC7 pC7 (by decide) (by decide)

/-- Concrete instantiation of the C8 theorem: lock id 5, wait 60 seconds,
lock it again. -/
theorem C8_witness :
    ((lock (tick (lock st0 5) 60) 5).redis.filter (fun e => e.1 == lockKey 5))
      = [(lockKey 5, st0.now + 60 + 60*30)] :=
  C8_lock_idempotent_refresh st0 5 60

/-- Concrete instantiation of the C9 theorem at the empty request body. -/
theorem C9_witness :
    postUser [] st0 = (Resp.msg "Request didn\x27t contain obligatory parameters", st0, []) ∧
    putUser [] st0 = (Resp.msg "Request didn\x27t contain obligatory parameters", st0, []) ∧
    deleteUser [] st0 = (Resp.msg "Request didn\x27t contain obligatory parameters", st0, []) :=
  ⟨(C9_missing_params [] st0).1 (by decide),
   (C9_missing_params [] st0).2.1 (by decide),
   (C9_missing_params [] st0).2.2 (by decide)⟩

/-- Concrete instantiation of the C10 theorem at an empty and a non-empty
store. -/
theorem C10_witness :
    get_users st0 = (Resp.msg "Users not found", st0, [Ev.dbSelect]) ∧
    get_users stC2 = (Resp.msgUsers "Users found" stC2.db.people, stC2, [Ev.dbSelect]) :=
  ⟨(C10_get_users st0).1 (by decide), (C10_get_users stC2).2 (by decide)⟩
